import Mathlib

/-!
Shallow embedding of the map/world decoding core of the repository
(src/loader.rs, src/map/asset.rs, src/world/mod.rs), together with
theorems checking the specification's claims against it.

Conventions of the embedding:
* Rust u32 values are Nat, with explicit `% 2 ^ 32` where wraparound of
  the source's u32 arithmetic matters; i32 values are Int.
* A Rust panic (an .expect on a missing HashMap entry, an abort) is
  modelled by Option: a function that can panic returns none exactly on
  the inputs where the source aborts.
* Bevy entities are irrelevant to the claims; a placed tile is recorded
  as its observable data (position, texture index, flip flags), and the
  spawned-maps HashMap of a world instance is modelled by its key set
  (a Finset Nat), which is all the claims mention.
* f32 geometry (world chunking) is modelled over the rationals: the
  planar isometry that the source extracts from the world instance's
  GlobalTransform (scale/rotation/translation decomposition followed by
  quaternion axis-angle extraction) is taken as an input rotation
  (cos/sin pair, exactly the payload of bevy's Rot2) plus translation.
-/

/-- One tile cell of a layer, combining what the source reads through
LayerTile (tileset_index, id) and through TileData (the three flip
flags); in the tiled crate both accessors read the same underlying
cell, returning Some on exactly the same cells. -/
structure TileRec where
  tileset_index : Nat
  id : Nat
  flip_h : Bool
  flip_v : Bool
  flip_d : Bool
deriving DecidableEq, Repr

/-- A tile placed into the TileStorage grid: TilePos plus the
TileBundle data the loader records (texture index and flips). -/
structure PlacedTile where
  x : Nat
  y : Nat
  texture_index : Nat
  flip_h : Bool
  flip_v : Bool
  flip_d : Bool
deriving DecidableEq, Repr

/-- TilemapTexture: a single shared atlas image, or a vector of
per-tile images (the handles themselves are irrelevant here). -/
inductive TilemapTexture where
  | single
  | vector
deriving DecidableEq

/-- The tile_image_offsets table of the map asset:
(tileset_index, tile_id) to offset into the image vector. -/
def OffsetTable : Type := Nat × Nat → Option Nat

/-- A finite tile layer: document coordinates (x, y from the top-left)
to the optional tile in that cell. -/
def FiniteLayer : Type := Nat → Nat → Option TileRec

/-- Row-major cell enumeration of the loader's nested loops
(for x in 0..w { for y in 0..h }). -/
def cells (w h : Nat) : List (Nat × Nat) :=
  (List.range w).flatMap (fun x => (List.range h).map (fun y => (x, y)))

/-- The texture-index computation shared by the finite and infinite
loaders: the in-tileset id for a single-image tileset, the offset-table
lookup for an image-collection tileset; none models the .expect panic
on a missing entry. -/
def texture_index_of (off : OffsetTable) (tileset_index : Nat)
    (tex : TilemapTexture) (tile_id : Nat) : Option Nat :=
  match tex with
  | .single => some tile_id
  | .vector => off (tileset_index, tile_id)

/-- Body of load_finite_tiles for one storage cell (x, y): none is the
panic of the offset lookup, some none a skipped cell, some (some t) a
placed tile. The document row read is mapped_y = height - 1 - y. -/
def finite_cell (h : Nat) (off : OffsetTable) (tileset_index : Nat)
    (tex : TilemapTexture) (layer : FiniteLayer) (xy : Nat × Nat) :
    Option (Option PlacedTile) :=
  let mapped_y := h - 1 - xy.2
  match layer xy.1 mapped_y with
  | none => some none
  | some t =>
    if tileset_index ≠ t.tileset_index then some none
    else
      match texture_index_of off tileset_index tex t.id with
      | none => none
      | some ti =>
        some (some ⟨xy.1, xy.2, ti, t.flip_h, t.flip_v, t.flip_d⟩)

/-- load_finite_tiles (src/loader.rs): iterate every storage cell of
the declared w × h grid, read the document cell at the vertically
inverted row, skip empty cells and tiles of other tilesets, and place
the rest; none models the panic of a failed offset lookup. -/
def load_finite_tiles (w h : Nat) (off : OffsetTable)
    (tileset_index : Nat) (tex : TilemapTexture) (layer : FiniteLayer) :
    Option (List PlacedTile) :=
  (cells w h).foldlM
    (fun acc xy =>
      (finite_cell h off tileset_index tex layer xy).map
        (fun o =>
          match o with
          | none => acc
          | some t => acc ++ [t]))
    []

/- ### Infinite (chunked) layers — load_infinite_tiles (src/loader.rs) -/

/-- ChunkData::WIDTH of the tiled crate (tiles per chunk on x). -/
def ChunkData_WIDTH : Nat := 16

/-- ChunkData::HEIGHT of the tiled crate (tiles per chunk on y). -/
def ChunkData_HEIGHT : Nat := 16

/-- One chunk of an infinite layer: local cell coordinates
(0 ≤ x < 16, 0 ≤ y < 16) to the optional tile there. -/
def Chunk : Type := Nat → Nat → Option TileRec

/-- An infinite layer, as the sequence its chunks() iterator yields:
(signed chunk position, chunk data) pairs. -/
def InfiniteLayer : Type := List ((Int × Int) × Chunk)

/-- The first fold of load_infinite_tiles: the top-left chunk
coordinate, starting from the accumulator (0, 0). -/
def topleft (chunks : InfiniteLayer) : Int × Int :=
  chunks.foldl (fun acc c => (min acc.1 c.1.1, min acc.2 c.1.2)) (0, 0)

/-- The second fold of load_infinite_tiles: the bottom-right chunk
coordinate, starting from the accumulator (0, 0). -/
def bottomright (chunks : InfiniteLayer) : Int × Int :=
  chunks.foldl (fun acc c => (max acc.1 c.1.1, max acc.2 c.1.2)) (0, 0)

/-- The _origin binding of load_infinite_tiles:
(-topleft_x * ChunkData::WIDTH, -topleft_y * ChunkData::HEIGHT). -/
def infinite_origin (chunks : InfiniteLayer) : Int × Int :=
  (-(topleft chunks).1 * (ChunkData_WIDTH : Int),
   -(topleft chunks).2 * (ChunkData_HEIGHT : Int))

/-- The recalculated TilemapSize of load_infinite_tiles:
(bottomright - topleft + 1) chunks per axis, times the chunk dimension
(the difference is nonnegative, so the u32 cast is exact). -/
def infinite_map_size (chunks : InfiniteLayer) : Nat × Nat :=
  (((bottomright chunks).1 - (topleft chunks).1 + 1).toNat * ChunkData_WIDTH,
   ((bottomright chunks).2 - (topleft chunks).2 + 1).toNat * ChunkData_HEIGHT)

/-- Body of the inner loops of load_infinite_tiles for one local cell
(x, y) of one chunk: the same skip/tileset-filter/texture-index logic
as the finite case, then the global position
tile = shifted_chunk * chunk_dim + local, stored at
(tile_x, map_size.y - tile_y) — note: no "- 1" in the source. -/
def infinite_cell (map_size_y : Nat) (off : OffsetTable)
    (tileset_index : Nat) (tex : TilemapTexture)
    (chunk_pos_mapped : Int × Int) (chunk : Chunk) (xy : Nat × Nat) :
    Option (Option PlacedTile) :=
  match chunk xy.1 xy.2 with
  | none => some none
  | some t =>
    if tileset_index ≠ t.tileset_index then some none
    else
      match texture_index_of off tileset_index tex t.id with
      | none => none
      | some ti =>
        let tile_x := chunk_pos_mapped.1 * (ChunkData_WIDTH : Int) + xy.1
        let tile_y := chunk_pos_mapped.2 * (ChunkData_HEIGHT : Int) + xy.2
        some (some ⟨tile_x.toNat, map_size_y - tile_y.toNat,
                    ti, t.flip_h, t.flip_v, t.flip_d⟩)

/-- load_infinite_tiles (src/loader.rs): compute the chunk extents and
storage size, shift every chunk so the top-left chunk is at (0, 0),
then place every tile of every chunk; none models the panic of a
failed offset lookup. -/
def load_infinite_tiles (off : OffsetTable) (tileset_index : Nat)
    (tex : TilemapTexture) (chunks : InfiniteLayer) :
    Option (List PlacedTile) :=
  let tl := topleft chunks
  let map_size_y := (infinite_map_size chunks).2
  chunks.foldlM
    (fun acc c =>
      let chunk_pos_mapped := (c.1.1 - tl.1, c.1.2 - tl.2)
      (cells ChunkData_WIDTH ChunkData_HEIGHT).foldlM
        (fun acc2 xy =>
          (infinite_cell map_size_y off tileset_index tex
              chunk_pos_mapped c.2 xy).map
            (fun o =>
              match o with
              | none => acc2
              | some t => acc2 ++ [t]))
        acc)
    []


/- ### Map asset builder (src/map/asset.rs) -/

/-- A tile image of an image-collection tileset: its pixel dimensions
(i32 in the tiled crate). -/
structure TileImage where
  width : Int
  height : Int
deriving DecidableEq

/-- One iteration of the collection-tileset loop of TiledMapLoader::load
over the state (usable_for_tiles_layer, image_size): a tile without an
image leaves the state alone; otherwise, while the flag still holds,
the first image fixes image_size and any later image differing from it
in either dimension clears the flag. -/
def collect_step (st : Bool × Option (Int × Int)) (img : Option TileImage) :
    Bool × Option (Int × Int) :=
  match img with
  | none => st
  | some i =>
    if st.1 then
      match st.2 with
      | some sz =>
        if i.width ≠ sz.1 ∨ i.height ≠ sz.2 then (false, st.2) else st
      | none => (st.1, some (i.width, i.height))
    else st

/-- The usable_for_tiles_layer flag computed for an image-collection
tileset, from the per-tile optional images in iteration order. -/
def usable_for_tiles_layer (tiles : List (Option TileImage)) : Bool :=
  (tiles.foldl collect_step (true, none)).1

/-- 2^32, the modulus of the source's u32 arithmetic. -/
def U32_MOD : Nat := 2 ^ 32

/-- Wrapping u32 subtraction (for operands below 2^32). -/
def u32_sub (a b : Nat) : Nat := (a + U32_MOD - b) % U32_MOD

/-- Wrapping u32 addition. -/
def u32_add (a b : Nat) : Nat := (a + b) % U32_MOD

/-- An i32 reinterpreted as u32 (the source's "as u32" cast). -/
def to_u32 (i : Int) : Nat := (i % (U32_MOD : Int)).toNat

/-- The fields of a single-image tileset read by TiledMapLoader::load
(u32 fields of the tiled crate; offsets are i32; image_width is the
parser's i32 cast to u32 — the claims' hypotheses keep it exact). -/
structure TilesetData where
  name : String
  image_width : Nat
  margin : Nat
  spacing : Nat
  tile_width : Nat
  tile_height : Nat
  tilecount : Nat
  offset_x : Int
  offset_y : Int

/-- The atlas column count of TiledMapLoader::load:
(img.width as u32 - margin + spacing) / (tile_width + spacing),
in u32 arithmetic, left to right. -/
def atlas_columns (ts : TilesetData) : Nat :=
  u32_add (u32_sub ts.image_width ts.margin) ts.spacing /
    u32_add ts.tile_width ts.spacing

/-- The TextureAtlasLayout::from_grid data registered for an atlas
tileset, keyed by the tileset name it is labeled with. -/
structure AtlasLayout where
  tile_size_x : Nat
  tile_size_y : Nat
  columns : Nat
  rows : Nat
  spacing_x : Nat
  spacing_y : Nat
  off_x : Nat
  off_y : Nat
  key : String
deriving DecidableEq

/-- The Some(img) branch of TiledMapLoader::load for one tileset:
usable_for_tiles_layer is true, and a texture-atlas layout
(tile_width × tile_height cells, `columns` across, tilecount / columns
rows, the tileset's spacing, offset (offset_x + margin,
offset_y + margin), keyed by tileset name) is built iff columns > 0. -/
def build_single_image_tileset (ts : TilesetData) : Bool × Option AtlasLayout :=
  let columns := atlas_columns ts
  (true,
    if 0 < columns then
      some
        ⟨ts.tile_width, ts.tile_height, columns, ts.tilecount / columns,
         ts.spacing, ts.spacing,
         u32_add (to_u32 ts.offset_x) ts.margin,
         u32_add (to_u32 ts.offset_y) ts.margin, ts.name⟩
    else none)

/- ### Resource resolver (BytesResourceReader::read_from, src/loader.rs) -/

/-- The I/O error the resolver produces: ErrorKind::NotFound wrapping
the secondary read's failure. -/
inductive ResolverError where
  | not_found (msg : String)
deriving DecidableEq

/-- BytesResourceReader::read_from: a path with extension "tsx"
delegates to the (synchronously awaited) secondary read, surfacing its
failure as a NotFound I/O error; every other path yields a cursor over
the original top-level document bytes. -/
def read_from (orig : List Nat) (ext : Option String)
    (secondary : Except String (List Nat)) :
    Except ResolverError (List Nat) :=
  match ext with
  | some e =>
    if e = "tsx" then
      match secondary with
      | .ok data => .ok data
      | .error err => .error (.not_found err)
    else .ok orig
  | none => .ok orig

/- ### World chunking (src/world/mod.rs) -/

/-- A 2D vector over the rationals (standing in for bevy's f32 Vec2). -/
structure V2 where
  x : Rat
  y : Rat
deriving DecidableEq

/-- A child map's placement rectangle in the world document (bevy Rect). -/
structure Rect2 where
  min : V2
  max : V2
deriving DecidableEq

/-- An axis-aligned 2D bounding box (bevy Aabb2d). -/
structure Aabb2 where
  min : V2
  max : V2
deriving DecidableEq

/-- bevy Rot2: a planar rotation stored as its cosine and sine. -/
structure Rot2 where
  cos : Rat
  sin : Rat
deriving DecidableEq

/-- bevy Isometry2d: rotation followed by translation. The source
derives it from the world entity's GlobalTransform (scale/rotation/
translation split, then quaternion axis-angle extraction); that f32
trigonometry is abstracted into the resulting planar isometry. -/
structure Isometry2 where
  rotation : Rot2
  translation : V2
deriving DecidableEq

/-- Isometry2d::transform_point: rotate, then translate. -/
def transform_point (iso : Isometry2) (p : V2) : V2 :=
  ⟨iso.rotation.cos * p.x - iso.rotation.sin * p.y + iso.translation.x,
   iso.rotation.sin * p.x + iso.rotation.cos * p.y + iso.translation.y⟩

/-- Aabb2d::intersects: closed-interval overlap on both axes. -/
def aabb_intersects (a b : Aabb2) : Bool :=
  decide (a.min.x ≤ b.max.x) && decide (b.min.x ≤ a.max.x) &&
  decide (a.min.y ≤ b.max.y) && decide (b.min.y ≤ a.max.y)

/-- Aabb2d::from_point_cloud at the identity isometry: componentwise
min / max over a nonempty point list (first point, then the rest). -/
def aabb_from_points (p : V2) (ps : List V2) : Aabb2 :=
  ⟨ps.foldl (fun m q => ⟨min m.x q.x, min m.y q.y⟩) p,
   ps.foldl (fun m q => ⟨max m.x q.x, max m.y q.y⟩) p⟩

/-- The AABB for_each_map hands to its callback: the AABB of the
rectangle's four corners transformed by the world isometry, in the
source's corner order. -/
def map_aabb (iso : Isometry2) (rect : Rect2) : Aabb2 :=
  aabb_from_points (transform_point iso ⟨rect.min.x, rect.min.y⟩)
    [transform_point iso ⟨rect.min.x, rect.max.y⟩,
     transform_point iso ⟨rect.max.x, rect.max.y⟩,
     transform_point iso ⟨rect.max.x, rect.min.y⟩]

/-- The maps.iter().enumerate() of for_each_map. -/
def enum_maps : Nat → List Rect2 → List (Nat × Rect2)
  | _, [] => []
  | n, r :: rs => (n, r) :: enum_maps (n + 1) rs

/-- for_each_map (src/world/mod.rs): every child map index with its
transformed bounding box. -/
def for_each_map (iso : Isometry2) (maps : List Rect2) :
    List (Nat × Aabb2) :=
  (enum_maps 0 maps).map (fun p => (p.1, map_aabb iso p.2))

/-- An observer's view box: Aabb2d::new(camera position, chunking
radius), i.e. centered there with half-extent the radius. -/
def camera_view (chunking : Rat) (cam : V2) : Aabb2 :=
  ⟨⟨cam.x - chunking, cam.y - chunking⟩, ⟨cam.x + chunking, cam.y + chunking⟩⟩

/-- The visible_maps list of world_chunking: for each map in order, one
copy of its index per camera whose view box its AABB intersects. -/
def visible_maps (chunking : Rat) (cameras : List V2) (iso : Isometry2)
    (maps : List Rect2) : List Nat :=
  (for_each_map iso maps).flatMap
    (fun p =>
      ((cameras.map (camera_view chunking)).filter
        (fun c => aabb_intersects p.2 c)).map (fun _ => p.1))

/-- LayerPositioning of the map settings: {TiledOffset, Centered}. -/
inductive LayerPositioning where
  | tiledOffset
  | centered
deriving DecidableEq

/-- Modelled from the spec: the TiledMapSettings component is defined
outside the given source files; the claims touch only its
layer_positioning field, so its remaining fields — copied verbatim by
the spawn's struct-update syntax — are abstracted into one opaque
field. -/
structure TiledMapSettings where
  layer_positioning : LayerPositioning
  other_settings : Nat
deriving DecidableEq

/-- One spawned child map: the index inserted into spawned_maps, the
Transform::from_translation argument, and the TiledMapSettings the
entity is spawned with. -/
structure SpawnRec where
  idx : Nat
  translation_x : Rat
  translation_y : Rat
  translation_z : Rat
  settings : TiledMapSettings
deriving DecidableEq

/-- One evaluation of the world_chunking system (src/world/mod.rs) for
a loaded world instance, from the observed camera positions and the
current spawned-maps key set: with a chunking radius, to_spawn is the
visible-but-not-spawned list and to_remove the spawned-but-not-visible
keys; without one, to_spawn is 0..maps.len() - 1 (exclusive; Nat
subtraction mirrors the usize arithmetic for a nonempty map list) when
nothing is spawned yet, else nothing. Maps in to_remove are despawned
(erased), then each to_spawn index with an existing rectangle is
spawned at (rect.min.x, rect.min.y, 0) with layer_positioning forced
to TiledOffset, and recorded in the key set. -/
def world_chunking (chunking : Option Rat) (cameras : List V2)
    (iso : Isometry2) (maps : List Rect2) (spawned : Finset Nat)
    (map_settings : TiledMapSettings) : Finset Nat × List SpawnRec :=
  let to_sr : List Nat × List Nat :=
    match chunking with
    | some r =>
      let visible := visible_maps r cameras iso maps
      (visible.filter (fun idx => decide (idx ∉ spawned)),
       (spawned.filter (fun idx => idx ∉ visible)).sort (· ≤ ·))
    | none =>
      if spawned = ∅ then (List.range (maps.length - 1), []) else ([], [])
  let after_remove := to_sr.2.foldl (fun s idx => s.erase idx) spawned
  let spawn_recs := to_sr.1.filterMap
    (fun idx =>
      (maps.get? idx).map
        (fun rect =>
          SpawnRec.mk idx rect.min.x rect.min.y 0
            { map_settings with layer_positioning := .tiledOffset }))
  (after_remove ∪ (spawn_recs.map (fun s => s.idx)).toFinset, spawn_recs)

/- ### Generic fold lemmas used to reason about the cell loops -/

theorem mem_cells {w h : Nat} {x y : Nat} :
    (x, y) ∈ cells w h ↔ x < w ∧ y < h := by
  simp only [cells, List.mem_flatMap, List.mem_map, List.mem_range]
  constructor
  · rintro ⟨a, ha, b, hb, hab⟩
    cases hab
    exact ⟨ha, hb⟩
  · rintro ⟨hx, hy⟩
    exact ⟨x, hx, y, hy, rfl⟩

theorem foldlM_acc_none {α : Type} (step : α → Option (Option PlacedTile))
    (l : List α) (a : α) (ha : a ∈ l) (hnone : step a = none) :
    l.foldlM
      (fun acc xy =>
        (step xy).map
          (fun o =>
            match o with
            | none => acc
            | some t => acc ++ [t]))
      ([] : List PlacedTile) = none := by
  suffices h : ∀ (l : List α) (acc : List PlacedTile), a ∈ l →
      l.foldlM
        (fun acc xy =>
          (step xy).map
            (fun o =>
              match o with
              | none => acc
              | some t => acc ++ [t]))
        acc = none by
    exact h l [] ha
  intro l
  induction l with
  | nil => intro acc h; cases h
  | cons b t ih =>
    intro acc hmem
    rcases List.mem_cons.mp hmem with hba | hat
    · subst hba
      simp [List.foldlM_cons, hnone]
    · cases hsb : step b with
      | none => simp [List.foldlM_cons, hsb]
      | some o => simp [List.foldlM_cons, hsb, ih _ hat]

theorem foldlM_eq_filterMap {α : Type} (step : α → Option (Option PlacedTile))
    (g : α → Option PlacedTile) (l : List α)
    (hstep : ∀ a ∈ l, step a = some (g a)) (acc : List PlacedTile) :
    l.foldlM
      (fun acc xy =>
        (step xy).map
          (fun o =>
            match o with
            | none => acc
            | some t => acc ++ [t]))
      acc = some (acc ++ l.filterMap g) := by
  induction l generalizing acc with
  | nil => simp
  | cons b t ih =>
    have iht := ih (fun a ha => hstep a (List.mem_cons_of_mem b ha))
    have hb := hstep b (List.mem_cons_self b t)
    cases hgb : g b with
    | none =>
      rw [hgb] at hb
      simp [List.foldlM_cons, hb, List.filterMap_cons, hgb, iht]
    | some tile =>
      rw [hgb] at hb
      simp [List.foldlM_cons, hb, List.filterMap_cons, hgb, iht]


/- ### Characterizing the chunk-extent folds -/

theorem foldl_min_le_init (xs : List Int) (a : Int) : xs.foldl min a ≤ a := by
  induction xs generalizing a with
  | nil => simp
  | cons x t ih =>
    simp only [List.foldl_cons]
    exact le_trans (ih (min a x)) (min_le_left a x)

theorem foldl_min_le_mem (xs : List Int) (m : Int) (hm : m ∈ xs) :
    ∀ a, xs.foldl min a ≤ m := by
  induction xs with
  | nil => cases hm
  | cons x t ih =>
    intro a
    simp only [List.foldl_cons]
    rcases List.mem_cons.mp hm with h | h
    · subst h
      exact le_trans (foldl_min_le_init t (min a m)) (min_le_right a m)
    · exact ih h (min a x)

theorem le_foldl_min (xs : List Int) (b : Int) (hall : ∀ x ∈ xs, b ≤ x) :
    ∀ a, b ≤ a → b ≤ xs.foldl min a := by
  induction xs with
  | nil =>
    intro a h
    simpa using h
  | cons x t ih =>
    intro a ha
    simp only [List.foldl_cons]
    exact ih (fun y hy => hall y (List.mem_cons_of_mem x hy)) (min a x)
      (le_min ha (hall x (List.mem_cons_self x t)))

theorem foldl_min_eq (xs : List Int) (a m : Int) (hm : m ∈ xs)
    (hall : ∀ x ∈ xs, m ≤ x) : xs.foldl min a = min a m :=
  le_antisymm
    (le_min (foldl_min_le_init xs a) (foldl_min_le_mem xs m hm a))
    (le_foldl_min xs (min a m)
      (fun x hx => le_trans (min_le_right a m) (hall x hx)) a (min_le_left a m))

theorem init_le_foldl_max (xs : List Int) (a : Int) : a ≤ xs.foldl max a := by
  induction xs generalizing a with
  | nil => simp
  | cons x t ih =>
    simp only [List.foldl_cons]
    exact le_trans (le_max_left a x) (ih (max a x))

theorem mem_le_foldl_max (xs : List Int) (m : Int) (hm : m ∈ xs) :
    ∀ a, m ≤ xs.foldl max a := by
  induction xs with
  | nil => cases hm
  | cons x t ih =>
    intro a
    simp only [List.foldl_cons]
    rcases List.mem_cons.mp hm with h | h
    · subst h
      exact le_trans (le_max_right a m) (init_le_foldl_max t (max a m))
    · exact ih h (max a x)

theorem foldl_max_le (xs : List Int) (b : Int) (hall : ∀ x ∈ xs, x ≤ b) :
    ∀ a, a ≤ b → xs.foldl max a ≤ b := by
  induction xs with
  | nil =>
    intro a h
    simpa using h
  | cons x t ih =>
    intro a ha
    simp only [List.foldl_cons]
    exact ih (fun y hy => hall y (List.mem_cons_of_mem x hy)) (max a x)
      (max_le ha (hall x (List.mem_cons_self x t)))

theorem foldl_max_eq (xs : List Int) (a m : Int) (hm : m ∈ xs)
    (hall : ∀ x ∈ xs, x ≤ m) : xs.foldl max a = max a m :=
  le_antisymm
    (foldl_max_le xs (max a m)
      (fun x hx => le_trans (hall x hx) (le_max_right a m)) a (le_max_left a m))
    (max_le (init_le_foldl_max xs a) (mem_le_foldl_max xs m hm a))

theorem topleft_eq_folds (chunks : InfiniteLayer) :
    topleft chunks =
      ((chunks.map (fun c => c.1.1)).foldl min 0,
       (chunks.map (fun c => c.1.2)).foldl min 0) := by
  unfold topleft
  suffices h : ∀ p : Int × Int,
      chunks.foldl (fun acc c => (min acc.1 c.1.1, min acc.2 c.1.2)) p =
        ((chunks.map (fun c => c.1.1)).foldl min p.1,
         (chunks.map (fun c => c.1.2)).foldl min p.2) by
    exact h (0, 0)
  induction chunks with
  | nil => intro p; simp
  | cons c t ih =>
    intro p
    simp [List.foldl_cons, ih]

theorem bottomright_eq_folds (chunks : InfiniteLayer) :
    bottomright chunks =
      ((chunks.map (fun c => c.1.1)).foldl max 0,
       (chunks.map (fun c => c.1.2)).foldl max 0) := by
  unfold bottomright
  suffices h : ∀ p : Int × Int,
      chunks.foldl (fun acc c => (max acc.1 c.1.1, max acc.2 c.1.2)) p =
        ((chunks.map (fun c => c.1.1)).foldl max p.1,
         (chunks.map (fun c => c.1.2)).foldl max p.2) by
    exact h (0, 0)
  induction chunks with
  | nil => intro p; simp
  | cons c t ih =>
    intro p
    simp [List.foldl_cons, ih]

/-- C1 (amended): the extent folds of load_infinite_tiles start from
the accumulator (0, 0), so the storage grid dimensions are
(max (0, max_chunk) - min (0, min_chunk) + 1) * chunk_dimension on
each axis, where min_chunk / max_chunk range over the chunk
coordinates actually present; the recorded origin offset equals
-min (0, min_chunk) * chunk_dim on each axis. -/
theorem claim_C1 (chunks : InfiniteLayer) (mnx mny mxx mxy : Int)
    (hmnx1 : mnx ∈ chunks.map (fun c => c.1.1))
    (hmnx2 : ∀ x ∈ chunks.map (fun c => c.1.1), mnx ≤ x)
    (hmny1 : mny ∈ chunks.map (fun c => c.1.2))
    (hmny2 : ∀ x ∈ chunks.map (fun c => c.1.2), mny ≤ x)
    (hmxx1 : mxx ∈ chunks.map (fun c => c.1.1))
    (hmxx2 : ∀ x ∈ chunks.map (fun c => c.1.1), x ≤ mxx)
    (hmxy1 : mxy ∈ chunks.map (fun c => c.1.2))
    (hmxy2 : ∀ x ∈ chunks.map (fun c => c.1.2), x ≤ mxy) :
    infinite_map_size chunks =
      ((max 0 mxx - min 0 mnx + 1).toNat * ChunkData_WIDTH,
       (max 0 mxy - min 0 mny + 1).toNat * ChunkData_HEIGHT) ∧
    infinite_origin chunks =
      (-(min 0 mnx) * (ChunkData_WIDTH : Int),
       -(min 0 mny) * (ChunkData_HEIGHT : Int)) := by
  have htl : topleft chunks = (min 0 mnx, min 0 mny) := by
    rw [topleft_eq_folds, foldl_min_eq _ _ _ hmnx1 hmnx2,
      foldl_min_eq _ _ _ hmny1 hmny2]
  have hbr : bottomright chunks = (max 0 mxx, max 0 mxy) := by
    rw [bottomright_eq_folds, foldl_max_eq _ _ _ hmxx1 hmxx2,
      foldl_max_eq _ _ _ hmxy1 hmxy2]
  constructor
  · simp [infinite_map_size, htl, hbr]
  · simp [infinite_origin, htl]

/-- C1 counterexample: for the layer holding a single chunk at the
negative coordinate (-1, -1), min_chunk = max_chunk = -1 among the
chunks actually present, so the claim demands a storage width of
(-1 - -1 + 1) * 16 = 16; the code computes 32 (the fold accumulator
(0, 0) takes part in the extent computation). -/
theorem claim_C1_counterexample :
    (infinite_map_size [(((-1 : Int), (-1 : Int)), (fun _ _ => none : Chunk))]).1 = 32 ∧
    (((-1 : Int) - (-1 : Int) + 1).toNat * ChunkData_WIDTH = 16) ∧
    (32 : Nat) ≠ 16 := by
  refine ⟨?_, by decide, by decide⟩
  decide

/-- Witness for C1: the amended formula applied to the single chunk at
(-1, -1) gives dimensions (32, 32) and origin offset (16, 16). -/
theorem claim_C1_witness :
    infinite_map_size [(((-1 : Int), (-1 : Int)), (fun _ _ => none : Chunk))] = (32, 32) ∧
    infinite_origin [(((-1 : Int), (-1 : Int)), (fun _ _ => none : Chunk))] = (16, 16) := by
  obtain ⟨h1, h2⟩ :=
    claim_C1 [(((-1 : Int), (-1 : Int)), (fun _ _ => none : Chunk))]
      (-1) (-1) (-1) (-1)
      (by decide) (by decide) (by decide) (by decide)
      (by decide) (by decide) (by decide) (by decide)
  exact ⟨h1.trans (by decide), h2.trans (by decide)⟩

set_option maxRecDepth 10000 in
/-- C2 (code bug): for the layer holding one chunk at (0, 0) whose
only tile sits at local cell (0, 0) — global pre-inversion row r = 0 —
the computed storage height is 16, and the code stores the tile at row
16 = height - r, one past the last valid row of the storage grid
(rows 0..15; bevy_ecs_tilemap's TileStorage.set indexes out of
bounds there). The claim's stored row, height - 1 - r, is 15. -/
theorem claim_C2 :
    load_infinite_tiles (fun _ => none) 0 .single
      [(((0 : Int), (0 : Int)),
        (fun x y => if x = 0 ∧ y = 0 then some ⟨0, 5, false, false, false⟩
          else none : Chunk))] =
      some [⟨0, 16, 5, false, false, false⟩] ∧
    (infinite_map_size
      [(((0 : Int), (0 : Int)),
        (fun x y => if x = 0 ∧ y = 0 then some ⟨0, 5, false, false, false⟩
          else none : Chunk))]).2 = 16 ∧
    (16 : Nat) ≠ 16 - 1 - 0 := by
  refine ⟨?_, by decide, by decide⟩
  decide

/- ### C5 / C7: the finite materializer -/

/-- C5: for a finite layer on an atlas (single-image) tileset the
materialization never aborts, a tile is placed at storage (x, y)
exactly when the document cell (x, h - 1 - y) holds a tile of the
materialized tileset, its texture index is the in-tileset tile id and
its flip flags are copied verbatim, and the row inversion is an
involution on in-bounds rows. -/
theorem claim_C5 (w h tileset_index : Nat) (off : OffsetTable)
    (layer : FiniteLayer) :
    ∃ l, load_finite_tiles w h off tileset_index .single layer = some l ∧
      (∀ x y ti fh fv fd, (PlacedTile.mk x y ti fh fv fd) ∈ l ↔
        x < w ∧ y < h ∧
          layer x (h - 1 - y) = some (TileRec.mk tileset_index ti fh fv fd)) ∧
      (∀ y, y < h → h - 1 - (h - 1 - y) = y) := by
  classical
  set g : Nat × Nat → Option PlacedTile := fun xy =>
    match layer xy.1 (h - 1 - xy.2) with
    | none => none
    | some t =>
      if tileset_index ≠ t.tileset_index then none
      else some ⟨xy.1, xy.2, t.id, t.flip_h, t.flip_v, t.flip_d⟩
    with hg
  have hstep : ∀ xy ∈ cells w h,
      finite_cell h off tileset_index .single layer xy = some (g xy) := by
    intro xy _
    obtain ⟨a, b⟩ := xy
    cases hl : layer a (h - 1 - b) with
    | none => simp [finite_cell, hg, hl]
    | some t =>
      by_cases hts : tileset_index ≠ t.tileset_index
      · simp [finite_cell, hg, hl, hts]
      · push_neg at hts
        simp [finite_cell, texture_index_of, hg, hl, hts]
  refine ⟨(cells w h).filterMap g, ?_, ?_, ?_⟩
  · have := foldlM_eq_filterMap
      (finite_cell h off tileset_index .single layer) g (cells w h) hstep []
    simpa [load_finite_tiles] using this
  · intro x y ti fh fv fd
    constructor
    · intro hmem
      obtain ⟨xy, hxy, hgxy⟩ := List.mem_filterMap.mp hmem
      obtain ⟨a, b⟩ := xy
      simp only [hg] at hgxy
      cases hl : layer a (h - 1 - b) with
      | none => simp [hl] at hgxy
      | some t =>
        obtain ⟨tsi, tid, tfh, tfv, tfd⟩ := t
        by_cases hts : tileset_index ≠ tsi
        · simp [hl, hts] at hgxy
        · push_neg at hts
          subst hts
          simp only [hl] at hgxy
          simp at hgxy
          obtain ⟨hax, hby, hid, hfh, hfv, hfd⟩ := hgxy
          subst hax
          subst hby
          subst hid
          subst hfh
          subst hfv
          subst hfd
          obtain ⟨ha, hb⟩ := mem_cells.mp hxy
          exact ⟨ha, hb, hl⟩
    · rintro ⟨hx, hy, hl⟩
      refine List.mem_filterMap.mpr ⟨(x, y), mem_cells.mpr ⟨hx, hy⟩, ?_⟩
      simp [hg, hl]
  · intro y hy
    omega

/-- Witness for C5: the spec's own scenario — a 2 × 2 finite layer with
one tile at document (0, 0), tileset 0, id 3, flips (h, -, -) — yields
the placed tile (0, 1) with texture index 3 and flip_h set. -/
theorem claim_C5_witness :
    ∃ l, load_finite_tiles 2 2 (fun _ => none) 0 .single
      (fun x y => if x = 0 ∧ y = 0 then some ⟨0, 3, true, false, false⟩
        else none) = some l ∧
      (PlacedTile.mk 0 1 3 true false false) ∈ l := by
  obtain ⟨l, hl, hmem, _⟩ :=
    claim_C5 2 2 0 (fun _ => none)
      (fun x y => if x = 0 ∧ y = 0 then some ⟨0, 3, true, false, false⟩
        else none)
  exact ⟨l, hl, (hmem 0 1 3 true false false).mpr (by decide)⟩

/-- C7: for a vector (image-collection) tileset binding, if the offset
table holds an entry for every tile the layer references from this
tileset then the materialization never reaches the abort (the panic
branch is unreachable and a storage is produced); and a referenced
tile whose offset is missing makes the materialization abort
(none — the source has no recoverable-error return path here). -/
theorem claim_C7 (w h tileset_index : Nat) (off : OffsetTable)
    (layer : FiniteLayer) :
    ((∀ x y t, x < w → y < h → layer x y = some t →
        t.tileset_index = tileset_index → (off (tileset_index, t.id)).isSome) →
      (load_finite_tiles w h off tileset_index .vector layer).isSome) ∧
    (∀ x y t, x < w → y < h → layer x y = some t →
      t.tileset_index = tileset_index → off (tileset_index, t.id) = none →
      load_finite_tiles w h off tileset_index .vector layer = none) := by
  classical
  constructor
  · intro H
    set g : Nat × Nat → Option PlacedTile := fun xy =>
      match layer xy.1 (h - 1 - xy.2) with
      | none => none
      | some t =>
        if tileset_index ≠ t.tileset_index then none
        else
          match off (tileset_index, t.id) with
          | none => none
          | some ti => some ⟨xy.1, xy.2, ti, t.flip_h, t.flip_v, t.flip_d⟩
      with hg
    have hstep : ∀ xy ∈ cells w h,
        finite_cell h off tileset_index .vector layer xy = some (g xy) := by
      intro xy hxy
      obtain ⟨a, b⟩ := xy
      obtain ⟨ha, hb⟩ := mem_cells.mp hxy
      cases hl : layer a (h - 1 - b) with
      | none => simp [finite_cell, hg, hl]
      | some t =>
        by_cases hts : tileset_index ≠ t.tileset_index
        · simp [finite_cell, hg, hl, hts]
        · push_neg at hts
          have hoff : (off (tileset_index, t.id)).isSome :=
            H a (h - 1 - b) t ha (by omega) hl hts.symm
          obtain ⟨ti, hti⟩ := Option.isSome_iff_exists.mp hoff
          have hti2 : off (t.tileset_index, t.id) = some ti := by
            rw [← hts]
            exact hti
          simp [finite_cell, texture_index_of, hg, hl, hts, hti, hti2]
    rw [load_finite_tiles, foldlM_eq_filterMap
      (finite_cell h off tileset_index .vector layer) g (cells w h) hstep []]
    rfl
  · intro x y t hx hy hl hts hoff
    rw [load_finite_tiles]
    apply foldlM_acc_none (finite_cell h off tileset_index .vector layer) _
      (x, h - 1 - y) (mem_cells.mpr ⟨hx, by omega⟩)
    have hmy : h - 1 - (h - 1 - y) = y := by omega
    simp [finite_cell, texture_index_of, hmy, hl, hts, hoff]

/-- Witness for C7: with the single referenced tile's offset recorded
the 1 × 1 layer materializes (no abort); with an empty offset table the
same layer aborts. -/
theorem claim_C7_witness :
    (load_finite_tiles 1 1 (fun p => if p = (0, 7) then some 2 else none) 0
      .vector
      (fun x y => if x = 0 ∧ y = 0 then some ⟨0, 7, false, false, false⟩
        else none)).isSome ∧
    load_finite_tiles 1 1 (fun _ => none) 0 .vector
      (fun x y => if x = 0 ∧ y = 0 then some ⟨0, 7, false, false, false⟩
        else none) = none := by
  constructor
  · apply (claim_C7 1 1 0 (fun p => if p = (0, 7) then some 2 else none)
      (fun x y => if x = 0 ∧ y = 0 then some ⟨0, 7, false, false, false⟩
        else none)).1
    intro x y t hx hy hlt hts
    have hx0 : x = 0 := by omega
    have hy0 : y = 0 := by omega
    subst hx0
    subst hy0
    simp only [show ((0 : Nat) = 0 ∧ (0 : Nat) = 0) = True by simp,
      if_true] at hlt
    cases Option.some_injective _ hlt
    decide
  · exact (claim_C7 1 1 0 (fun _ => none)
      (fun x y => if x = 0 ∧ y = 0 then some ⟨0, 7, false, false, false⟩
        else none)).2 0 0 ⟨0, 7, false, false, false⟩ (by decide) (by decide)
      (by decide) (by decide) (by decide)

/- ### C6: usable_for_tiles_layer for image-collection tilesets -/

theorem collect_fold_false (tiles : List (Option TileImage))
    (s : Option (Int × Int)) :
    tiles.foldl collect_step (false, s) = (false, s) := by
  induction tiles with
  | nil => rfl
  | cons i t ih =>
    cases i with
    | none => simpa [collect_step] using ih
    | some img => simpa [collect_step] using ih

theorem collect_fold_fixed (tiles : List (Option TileImage)) (sz : Int × Int) :
    (tiles.foldl collect_step (true, some sz)).1 = true ↔
      ∀ i ∈ tiles.filterMap id, i.width = sz.1 ∧ i.height = sz.2 := by
  induction tiles with
  | nil => simp
  | cons hd t ih =>
    cases hd with
    | none => simpa [collect_step] using ih
    | some i =>
      by_cases hd : i.width ≠ sz.1 ∨ i.height ≠ sz.2
      · simp only [List.foldl_cons, collect_step, if_pos hd, if_true,
          collect_fold_false, List.filterMap_cons, id]
        constructor
        · intro h
          cases h
        · intro h
          rcases hd with hne | hne
          · exact absurd (h i (List.mem_cons_self i (t.filterMap id))).1 hne
          · exact absurd (h i (List.mem_cons_self i (t.filterMap id))).2 hne
      · push_neg at hd
        simp only [List.foldl_cons, collect_step, ne_eq, hd.1, hd.2,
          not_true_eq_false, or_self, if_false, if_true,
          List.filterMap_cons, id, ih, List.mem_cons]
        constructor
        · intro h j hj
          rcases hj with rfl | hj
          · exact hd
          · exact h j hj
        · intro h j hj
          exact h j (Or.inr hj)

/-- C6: for an image-collection tileset, the computed
usable_for_tiles_layer flag is true exactly when every two of the
tileset's tile images agree in both pixel dimensions (vacuously true
when the tile list contributes no images). -/
theorem claim_C6 (tiles : List (Option TileImage)) :
    usable_for_tiles_layer tiles = true ↔
      ∀ i1 ∈ tiles.filterMap id, ∀ i2 ∈ tiles.filterMap id,
        i1.width = i2.width ∧ i1.height = i2.height := by
  unfold usable_for_tiles_layer
  induction tiles with
  | nil => simp
  | cons hd t ih =>
    cases hd with
    | none => simpa [collect_step] using ih
    | some i =>
      simp only [List.foldl_cons, collect_step, List.filterMap_cons, id,
        List.mem_cons, if_true]
      rw [collect_fold_fixed]
      constructor
      · intro h i1 h1 i2 h2
        have d1 : i1.width = i.width ∧ i1.height = i.height := by
          rcases h1 with rfl | h1
          · exact ⟨rfl, rfl⟩
          · exact h i1 h1
        have d2 : i2.width = i.width ∧ i2.height = i.height := by
          rcases h2 with rfl | h2
          · exact ⟨rfl, rfl⟩
          · exact h i2 h2
        exact ⟨d1.1.trans d2.1.symm, d1.2.trans d2.2.symm⟩
      · intro h j hj
        exact h j (Or.inr hj) i (Or.inl rfl)

/- ### C8: atlas column count and layout registration -/

/-- C8: for a single-image tileset whose margin does not exceed the
image width and whose u32 arithmetic does not wrap, the computed
column count equals the exact floor((image_width - margin + spacing) /
(tile_width + spacing)); a texture-atlas layout is built and
registered iff columns > 0, and its grid is tile_width × tile_height
cells, `columns` across, tilecount / columns rows, with the tileset's
spacing, keyed by the tileset name. -/
theorem claim_C8 (ts : TilesetData)
    (hm : ts.margin ≤ ts.image_width)
    (hiw : ts.image_width + ts.spacing < U32_MOD)
    (htw0 : 0 < ts.tile_width + ts.spacing)
    (htw : ts.tile_width + ts.spacing < U32_MOD) :
    atlas_columns ts =
      (ts.image_width - ts.margin + ts.spacing) / (ts.tile_width + ts.spacing) ∧
    ((build_single_image_tileset ts).2.isSome ↔ 0 < atlas_columns ts) ∧
    (∀ l, (build_single_image_tileset ts).2 = some l →
      l.tile_size_x = ts.tile_width ∧ l.tile_size_y = ts.tile_height ∧
      l.columns = atlas_columns ts ∧
      l.rows = ts.tilecount / atlas_columns ts ∧
      l.spacing_x = ts.spacing ∧ l.spacing_y = ts.spacing ∧
      l.key = ts.name) := by
  have hU : U32_MOD = 4294967296 := by norm_num [U32_MOD]
  rw [hU] at hiw htw
  have hnum : u32_add (u32_sub ts.image_width ts.margin) ts.spacing =
      ts.image_width - ts.margin + ts.spacing := by
    unfold u32_add u32_sub
    rw [hU]
    omega
  have hden : u32_add ts.tile_width ts.spacing = ts.tile_width + ts.spacing := by
    unfold u32_add
    rw [hU]
    omega
  have hcol : atlas_columns ts =
      (ts.image_width - ts.margin + ts.spacing) / (ts.tile_width + ts.spacing) := by
    rw [atlas_columns, hnum, hden]
  refine ⟨hcol, ?_, ?_⟩
  · by_cases h : 0 < atlas_columns ts
    · simp [build_single_image_tileset, h]
    · simp [build_single_image_tileset, h]
  · intro l hl
    by_cases h : 0 < atlas_columns ts
    · simp only [build_single_image_tileset, if_pos h,
        Option.some_inj] at hl
      subst hl
      exact ⟨rfl, rfl, rfl, rfl, rfl, rfl, rfl⟩
    · simp [build_single_image_tileset, if_neg h] at hl

/-- Witness for C8: a 64-px-wide tileset with no margin or spacing and
16-px tiles gets 4 columns and a registered layout of 2 rows of
16 × 16 cells keyed by its name. -/
theorem claim_C8_witness :
    atlas_columns ⟨"terrain", 64, 0, 0, 16, 16, 8, 0, 0⟩ = 4 ∧
    (build_single_image_tileset ⟨"terrain", 64, 0, 0, 16, 16, 8, 0, 0⟩).2 =
      some ⟨16, 16, 4, 2, 0, 0, 0, 0, "terrain"⟩ := by
  obtain ⟨h1, h2, h3⟩ :=
    claim_C8 ⟨"terrain", 64, 0, 0, 16, 16, 8, 0, 0⟩
      (by norm_num) (by norm_num [U32_MOD]) (by norm_num) (by norm_num [U32_MOD])
  refine ⟨h1.trans (by norm_num), ?_⟩
  decide

/- ### C9: the byte-source resolver -/

/-- C9: a path with extension "tsx" delegates to the secondary read —
succeeding with its data, and failing (iff the secondary read fails)
with a NotFound I/O error wrapping the failure; every other path,
extensionless ones included, never fails and yields the original
top-level document bytes. -/
theorem claim_C9 (orig : List Nat) (ext : Option String)
    (secondary : Except String (List Nat)) :
    (ext = some "tsx" →
      ((∀ d, secondary = .ok d → read_from orig ext secondary = .ok d) ∧
       (∀ s, secondary = .error s →
          read_from orig ext secondary = .error (.not_found s)) ∧
       ((∃ e, read_from orig ext secondary = .error e) ↔
          ∃ s, secondary = .error s))) ∧
    (ext ≠ some "tsx" → read_from orig ext secondary = .ok orig) := by
  constructor
  · rintro rfl
    refine ⟨?_, ?_, ?_⟩
    · rintro d rfl
      simp [read_from]
    · rintro s rfl
      simp [read_from]
    · cases secondary with
      | ok d => simp [read_from]
      | error s =>
        simp only [read_from, if_pos rfl]
        exact ⟨fun _ => ⟨s, rfl⟩, fun _ => ⟨.not_found s, rfl⟩⟩
  · intro hne
    cases ext with
    | none => simp [read_from]
    | some e =>
      have he : ¬(e = "tsx") := fun h => hne (by rw [h])
      simp [read_from, he]

/-- Witness for C9: a failing secondary read behind a .tsx path yields
the tagged NotFound error; a .png path and an extensionless path both
return the original bytes untouched. -/
theorem claim_C9_witness :
    read_from [1, 2] (some "tsx") (Except.error "missing") =
      .error (.not_found "missing") ∧
    read_from [1, 2] (some "png") (Except.ok [9]) = .ok [1, 2] ∧
    read_from [1, 2] none (Except.ok [9]) = .ok [1, 2] := by
  refine ⟨((claim_C9 [1, 2] (some "tsx")
      (Except.error "missing")).1 rfl).2.1 "missing" rfl, ?_, ?_⟩
  · exact (claim_C9 [1, 2] (some "png") (Except.ok [9])).2 (by simp)
  · exact (claim_C9 [1, 2] none (Except.ok [9])).2 (by simp)

/- ### C3 / C4 / C10: the world chunking evaluation -/

theorem mem_foldl_erase (l : List Nat) (s : Finset Nat) (a : Nat) :
    a ∈ l.foldl (fun s idx => s.erase idx) s ↔ a ∈ s ∧ a ∉ l := by
  induction l generalizing s with
  | nil => simp
  | cons i t ih =>
    simp only [List.foldl_cons, ih, Finset.mem_erase, List.mem_cons]
    constructor
    · rintro ⟨⟨hne, hs⟩, hnt⟩
      refine ⟨hs, ?_⟩
      rintro (h | h)
      · exact hne h
      · exact hnt h
    · rintro ⟨hs, hn⟩
      exact ⟨⟨fun h => hn (Or.inl h), hs⟩, fun h => hn (Or.inr h)⟩

theorem mem_enum_maps (maps : List Rect2) :
    ∀ (n i : Nat) (r : Rect2),
      (i, r) ∈ enum_maps n maps ↔ n ≤ i ∧ maps.get? (i - n) = some r := by
  induction maps with
  | nil =>
    intro n i r
    simp [enum_maps]
  | cons m t ih =>
    intro n i r
    simp only [enum_maps, List.mem_cons]
    constructor
    · rintro (h | h)
      · obtain ⟨rfl, rfl⟩ := Prod.mk.inj h
        simp
      · obtain ⟨hle, hget⟩ := (ih (n + 1) i r).mp h
        refine ⟨by omega, ?_⟩
        have he : i - n = (i - (n + 1)) + 1 := by omega
        rw [he, List.get?_cons_succ]
        exact hget
    · rintro ⟨hle, hget⟩
      by_cases hin : i = n
      · subst hin
        left
        rw [Nat.sub_self, List.get?_cons_zero] at hget
        rw [Option.some_inj.mp hget]
      · right
        refine (ih (n + 1) i r).mpr ⟨by omega, ?_⟩
        have he : i - n = (i - (n + 1)) + 1 := by omega
        rw [he, List.get?_cons_succ] at hget
        exact hget

theorem mem_visible_maps (r : Rat) (cams : List V2) (iso : Isometry2)
    (maps : List Rect2) (idx : Nat) :
    idx ∈ visible_maps r cams iso maps ↔
      ∃ rect, maps.get? idx = some rect ∧
        ∃ cam ∈ cams,
          aabb_intersects (map_aabb iso rect) (camera_view r cam) = true := by
  unfold visible_maps for_each_map
  simp only [List.mem_flatMap, List.mem_map, List.mem_filter]
  constructor
  · rintro ⟨p, hp, hmem⟩
    obtain ⟨q, hq, rfl⟩ := hp
    obtain ⟨c, ⟨⟨cam, hcam, rfl⟩, hint⟩, hidx⟩ := hmem
    obtain ⟨q1, q2⟩ := q
    have hqm := (mem_enum_maps maps 0 q1 q2).mp hq
    subst hidx
    exact ⟨q2, by simpa using hqm.2, cam, hcam, hint⟩
  · rintro ⟨rect, hrect, cam, hcam, hint⟩
    refine ⟨(idx, map_aabb iso rect),
      ⟨(idx, rect),
        (mem_enum_maps maps 0 idx rect).mpr ⟨Nat.zero_le _, by simpa using hrect⟩,
        rfl⟩,
      camera_view r cam, ⟨⟨cam, hcam, rfl⟩, hint⟩, rfl⟩

theorem world_chunking_mem (r : Rat) (cams : List V2) (iso : Isometry2)
    (maps : List Rect2) (spawned : Finset Nat) (st : TiledMapSettings)
    (idx : Nat) :
    idx ∈ (world_chunking (some r) cams iso maps spawned st).1 ↔
      idx ∈ visible_maps r cams iso maps := by
  have hvr : ∀ j, j ∈ visible_maps r cams iso maps → (maps.get? j).isSome := by
    intro j hj
    obtain ⟨rect, hrect, -⟩ := (mem_visible_maps r cams iso maps j).mp hj
    rw [hrect]
    rfl
  simp only [world_chunking, Finset.mem_union, mem_foldl_erase,
    Finset.mem_sort, Finset.mem_filter, List.mem_toFinset, List.mem_map,
    List.mem_filterMap, List.mem_filter, decide_eq_true_eq]
  constructor
  · rintro (⟨hs, hnr⟩ | ⟨s, ⟨j, ⟨hjv, hjs⟩, hjmap⟩, hsi⟩)
    · by_contra hnv
      exact hnr ⟨hs, hnv⟩
    · obtain ⟨rect, hrect, hseq⟩ := Option.map_eq_some'.mp hjmap
      have hji : s.idx = j := by
        rw [← hseq]
      rw [← hsi, hji]
      exact hjv
  · intro hv
    by_cases hsp : idx ∈ spawned
    · left
      exact ⟨hsp, fun h => h.2 hv⟩
    · right
      obtain ⟨rect, hrect⟩ := Option.isSome_iff_exists.mp (hvr idx hv)
      exact ⟨SpawnRec.mk idx rect.min.x rect.min.y 0
          { st with layer_positioning := .tiledOffset },
        ⟨idx, ⟨hv, hsp⟩, by rw [hrect]; rfl⟩, rfl⟩

/-- C4: with a chunking radius configured, after one evaluation a
child map index is in the spawned set iff its rectangle's transformed
bounding box intersects the view box of at least one observer; with
zero observers the spawned set ends up empty whatever it was before. -/
theorem claim_C4 (r : Rat) (iso : Isometry2) (maps : List Rect2)
    (spawned : Finset Nat) (st : TiledMapSettings) :
    (∀ (cameras : List V2) (idx : Nat),
      idx ∈ (world_chunking (some r) cameras iso maps spawned st).1 ↔
        ∃ rect, maps.get? idx = some rect ∧
          ∃ cam ∈ cameras,
            aabb_intersects (map_aabb iso rect) (camera_view r cam) = true) ∧
    (world_chunking (some r) [] iso maps spawned st).1 = ∅ := by
  constructor
  · intro cameras idx
    rw [world_chunking_mem, mem_visible_maps]
  · ext idx
    rw [world_chunking_mem, mem_visible_maps]
    simp

/-- C3 (code bug): a no-chunking world with two child maps and nothing
spawned yet spawns only index 0 after one evaluation — the source
iterates 0..maps.len() - 1 exclusive, skipping the last map, although
its own comment says "just spawn all maps"; a subsequent evaluation
with a non-empty spawned set spawns nothing. -/
theorem claim_C3 :
    (world_chunking none [] ⟨⟨1, 0⟩, ⟨0, 0⟩⟩
        [⟨⟨0, 0⟩, ⟨10, 10⟩⟩, ⟨⟨20, 20⟩, ⟨30, 30⟩⟩] ∅ ⟨.centered, 42⟩).1 = {0} ∧
    (1 : Nat) ∉ (world_chunking none [] ⟨⟨1, 0⟩, ⟨0, 0⟩⟩
        [⟨⟨0, 0⟩, ⟨10, 10⟩⟩, ⟨⟨20, 20⟩, ⟨30, 30⟩⟩] ∅ ⟨.centered, 42⟩).1 ∧
    (world_chunking none [] ⟨⟨1, 0⟩, ⟨0, 0⟩⟩
        [⟨⟨0, 0⟩, ⟨10, 10⟩⟩, ⟨⟨20, 20⟩, ⟨30, 30⟩⟩] {0} ⟨.centered, 42⟩).2 = [] := by
  refine ⟨by decide, by decide, by decide⟩

/-- C10: every child map the chunking evaluation spawns — in either
mode — is placed at translation (rect.min.x, rect.min.y, 0) of its
world rectangle, and carries the world's map settings with
layer_positioning overridden to TiledOffset. -/
theorem claim_C10 (chunking : Option Rat) (cameras : List V2)
    (iso : Isometry2) (maps : List Rect2) (spawned : Finset Nat)
    (st : TiledMapSettings) :
    ∀ s ∈ (world_chunking chunking cameras iso maps spawned st).2,
      ∃ rect, maps.get? s.idx = some rect ∧
        s.translation_x = rect.min.x ∧ s.translation_y = rect.min.y ∧
        s.translation_z = 0 ∧
        s.settings = { st with layer_positioning := .tiledOffset } := by
  intro s hs
  simp only [world_chunking, List.mem_filterMap] at hs
  obtain ⟨idx, hidx, hmap⟩ := hs
  obtain ⟨rect, hrect, hseq⟩ := Option.map_eq_some'.mp hmap
  refine ⟨rect, ?_, ?_, ?_, ?_, ?_⟩ <;> rw [← hseq]
  exact hrect

/-- Witness for C10: the spawn produced for map 0 of a two-map
no-chunking world sits at the rectangle's min corner with
layer_positioning forced to TiledOffset (the world's Centered setting
is not propagated). -/
theorem claim_C10_witness :
    ∃ rect,
      [(⟨⟨5, 6⟩, ⟨10, 10⟩⟩ : Rect2), ⟨⟨20, 20⟩, ⟨30, 30⟩⟩].get?
        (SpawnRec.mk 0 5 6 0 ⟨.tiledOffset, 42⟩).idx = some rect ∧
      (SpawnRec.mk 0 5 6 0 ⟨.tiledOffset, 42⟩).translation_x = rect.min.x ∧
      (SpawnRec.mk 0 5 6 0 ⟨.tiledOffset, 42⟩).translation_y = rect.min.y ∧
      (SpawnRec.mk 0 5 6 0 ⟨.tiledOffset, 42⟩).translation_z = 0 ∧
      (SpawnRec.mk 0 5 6 0 ⟨.tiledOffset, 42⟩).settings =
        { (⟨.centered, 42⟩ : TiledMapSettings) with
            layer_positioning := .tiledOffset } :=
  claim_C10 none [] ⟨⟨1, 0⟩, ⟨0, 0⟩⟩
    [⟨⟨5, 6⟩, ⟨10, 10⟩⟩, ⟨⟨20, 20⟩, ⟨30, 30⟩⟩] ∅ ⟨.centered, 42⟩
    (SpawnRec.mk 0 5 6 0 ⟨.tiledOffset, 42⟩) (by decide)
